import Mathlib

/-!
# Verification of the frf Summary / SummarySet subsystem

Shallow embedding of the Summary / SummarySet subsystem declared in
`src/frf/summary.h` (helit, frf random forest).  Only the header is part of
the repository snapshot, so each operation's behaviour is modelled from the
specification, with the header's own doc comments taken as the in-repo
authority wherever they pin behaviour (default type codes, error
accumulation, merge offset addressing, the BiGaussian last-feature crash).

Numeric values (C `float`/`double`) are modelled as `ℚ`; byte buffers are
modelled as lists of sized words (`u8` code bytes, `u32` counts, `f64`
floats), with sizes in bytes matching the binary grammar of the spec:
`Summary record ::= type_code:u8 payload`, `Gaussian ::= count:u32 mean:f64
variance:f64`, etc.
-/

/-- Feature kind reported by the external DataMatrix collaborator:
discrete or continuous. -/
inductive FeatureKind where
  | discrete
  | continuous
deriving DecidableEq, Repr

/-- Modelled from the spec: the external training-data container.
It supplies a feature count, each feature's kind, the value of a row at a
feature, and the category count of a discrete feature.  Values are total
functions, so an out-of-range read yields an unspecified value rather than
trapping (the header warns such reads crash the real code). -/
structure DataMatrix where
  featureCount : Nat
  featureKind : Nat → FeatureKind
  value : Nat → Nat → ℚ
  catCount : Nat → Nat

/-- The row-subset view (`IndexView`): a finite sequence of row indices. -/
abbrev IndexView := List Nat

/-- Error kinds of the design (spec section 7). -/
inductive ErrKind where
  | UnknownTypeCode
  | InvalidFeatureIndex
  | CorruptData
  | TagMismatch
deriving DecidableEq, Repr

/-- The discriminator tags of the four registered summary kinds
(`NothingSummary`, `CategoricalSummary`, `GaussianSummary`,
`BiGaussianSummary` in the header). -/
inductive SummaryTag where
  | nothingT
  | categoricalT
  | gaussianT
  | biGaussianT
deriving DecidableEq, Repr

/-- A Summary value: one feature's learned statistic (header: `void *`
with a leading `SummaryType` pointer; modelled as a tagged union, spec
section 3).  The categorical payload stores the per-category observation
counts (the spec allows counts or proportions; counts are chosen). -/
inductive Summary where
  | nothing
  | categorical (count : Nat) (cats : List ℚ)
  | gaussian (count : Nat) (mean variance : ℚ)
  | biGaussian (count : Nat) (mean0 mean1 cov00 cov01 cov11 : ℚ)
deriving DecidableEq, Repr

/-- The tag of a Summary (dispatch discriminator). -/
def Summary.tag : Summary → SummaryTag
  | .nothing => .nothingT
  | .categorical _ _ => .categoricalT
  | .gaussian _ _ _ => .gaussianT
  | .biGaussian _ _ _ _ _ _ => .biGaussianT

/-- One-character type code of each registered kind (header lines 96-105:
N, C, G, B). -/
def SummaryTag.code : SummaryTag → Char
  | .nothingT => 'N'
  | .categoricalT => 'C'
  | .gaussianT => 'G'
  | .biGaussianT => 'B'

/-- Registry lookup by code character (`ListSummary` auto-detection). -/
def tagOfCode (c : Char) : Option SummaryTag :=
  if c = 'N' then some .nothingT
  else if c = 'C' then some .categoricalT
  else if c = 'G' then some .gaussianT
  else if c = 'B' then some .biGaussianT
  else none

/-- A SummarySet is an ordered fixed-length sequence of Summary, one per
output feature (header struct: `int features; Summary feature[0];` — the
`features` field is the length of the member list). -/
abbrev SummarySet := List Summary

/-- Sum of a list of rationals. -/
def qsum (l : List ℚ) : ℚ := l.foldr (· + ·) 0

/-- Modelled from the spec: Categorical construction — frequency table
over the discrete feature's categories for the rows of the view. -/
def categoricalNew (dm : DataMatrix) (view : IndexView) (feature : Nat) : Summary :=
  .categorical view.length
    ((List.range (dm.catCount feature)).map
      (fun k => ((view.filter (fun r => decide (dm.value r feature = (k : ℚ)))).length : ℚ)))

/-- Modelled from the spec: Gaussian construction — count, mean and
population variance of the feature over the rows of the view. -/
def gaussianNew (dm : DataMatrix) (view : IndexView) (feature : Nat) : Summary :=
  let n : ℚ := (view.length : ℚ)
  let vals := view.map (fun r => dm.value r feature)
  let mean := qsum vals / n
  .gaussian view.length mean (qsum (vals.map (fun x => (x - mean) ^ 2)) / n)

/-- Modelled from the spec: BiGaussian construction — joint count, mean
vector and covariance over feature `f` and feature `f+1`.  Per the header
(line 104) the successor feature is read unconditionally; when `f` is the
last feature this is the out-of-bounds read the header warns about,
rendered here by the total `value` function. -/
def biGaussianNew (dm : DataMatrix) (view : IndexView) (feature : Nat) : Summary :=
  let n : ℚ := (view.length : ℚ)
  let xs := view.map (fun r => dm.value r feature)
  let ys := view.map (fun r => dm.value r (feature + 1))
  let m0 := qsum xs / n
  let m1 := qsum ys / n
  .biGaussian view.length m0 m1
    (qsum (xs.map (fun x => (x - m0) ^ 2)) / n)
    (qsum ((xs.zip ys).map (fun p => (p.1 - m0) * (p.2 - m1))) / n)
    (qsum (ys.map (fun y => (y - m1) ^ 2)) / n)

/-- Modelled from the spec: `Summary_new(code, dm, view, feature)` —
registry lookup by code (`UnknownTypeCode` on failure), range check on the
feature index (`InvalidFeatureIndex`), then the tag's constructor.  Per
header line 104 the BiGaussian constructor does NOT validate its successor
feature. -/
def Summary_new (code : Char) (dm : DataMatrix) (view : IndexView) (feature : Nat) :
    Except ErrKind Summary :=
  match tagOfCode code with
  | none => .error .UnknownTypeCode
  | some t =>
    if dm.featureCount ≤ feature then .error .InvalidFeatureIndex
    else
      match t with
      | .nothingT => .ok .nothing
      | .categoricalT => .ok (categoricalNew dm view feature)
      | .gaussianT => .ok (gaussianNew dm view feature)
      | .biGaussianT => .ok (biGaussianNew dm view feature)

/-! ## Serialization

Byte buffers are modelled as lists of sized words; `Word.size` is the
byte width each word occupies in the binary format of spec section 6
(little-endian u8 / u32 / IEEE-754 f64). -/

/-- A word of the serialized stream: a `u8` type-code byte, a `u32`
count, or an `f64` float. -/
inductive Word where
  | u8 (c : Char)
  | u32 (n : Nat)
  | f64 (q : ℚ)
deriving DecidableEq, Repr

/-- Width in bytes of one word of the stream. -/
def Word.size : Word → Nat
  | .u8 _ => 1
  | .u32 _ => 4
  | .f64 _ => 8

/-- Total byte size of a word stream. -/
def wordsSize (l : List Word) : Nat := (l.map Word.size).sum

/-- Modelled from the spec: `Summary_size` — bytes needed by the
self-describing record of spec section 6. -/
def Summary_size : Summary → Nat
  | .nothing => 1
  | .categorical _ cats => 1 + 4 + 8 * cats.length
  | .gaussian _ _ _ => 1 + 4 + 8 + 8
  | .biGaussian _ _ _ _ _ _ => 1 + 4 + 8 * 5

/-- Modelled from the spec: `Summary_to_bytes` — type code byte followed
by the tag-specific payload, exactly the grammar of spec section 6. -/
def Summary_to_bytes : Summary → List Word
  | .nothing => [.u8 'N']
  | .categorical n cats => .u8 'C' :: .u32 n :: cats.map Word.f64
  | .gaussian n m v => [.u8 'G', .u32 n, .f64 m, .f64 v]
  | .biGaussian n m0 m1 c00 c01 c11 =>
      [.u8 'B', .u32 n, .f64 m0, .f64 m1, .f64 c00, .f64 c01, .f64 c11]

/-- Reads the maximal prefix of `f64` words (the categorical payload has
no explicit length field in the spec grammar: it extends to the next
record's code byte or the end of the buffer). -/
def readF64s : List Word → List ℚ × List Word
  | .f64 q :: rest =>
    let p := readF64s rest
    (q :: p.1, p.2)
  | other => ([], other)

/-- Modelled from the spec: decode one self-describing Summary record
from the front of a buffer, returning the value and the remaining words;
`CorruptData` if the code byte matches no registered tag or the buffer is
shorter than the payload the code implies. -/
def Summary_decode : List Word → Except ErrKind (Summary × List Word)
  | .u8 c :: rest =>
    if c = 'N' then .ok (.nothing, rest)
    else if c = 'C' then
      match rest with
      | .u32 n :: r2 =>
        let p := readF64s r2
        .ok (.categorical n p.1, p.2)
      | _ => .error .CorruptData
    else if c = 'G' then
      match rest with
      | .u32 n :: .f64 m :: .f64 v :: r2 => .ok (.gaussian n m v, r2)
      | _ => .error .CorruptData
    else if c = 'B' then
      match rest with
      | .u32 n :: .f64 m0 :: .f64 m1 :: .f64 c00 :: .f64 c01 :: .f64 c11 :: r2 =>
        .ok (.biGaussian n m0 m1 c00 c01 c11, r2)
      | _ => .error .CorruptData
    else .error .CorruptData
  | _ => .error .CorruptData

/-- Modelled from the spec: `Summary_from_bytes(in, &ate)` — decodes one
record and reports the number of bytes consumed. -/
def Summary_from_bytes (buf : List Word) : Except ErrKind (Summary × Nat) :=
  match Summary_decode buf with
  | .ok p => .ok (p.1, wordsSize buf - wordsSize p.2)
  | .error e => .error e

/-- Concatenation of the member records in slot order (the loop inside
`SummarySet_to_bytes`). -/
def encodeRecords : List Summary → List Word
  | [] => []
  | s :: rest => Summary_to_bytes s ++ encodeRecords rest

/-- Modelled from the spec: `SummarySet_size` — feature count header plus
the members' record sizes. -/
def SummarySet_size (ss : SummarySet) : Nat :=
  4 + (ss.map Summary_size).sum

/-- Modelled from the spec: `SummarySet_to_bytes` — the feature count as
a u32 followed by each member's self-describing record in slot order. -/
def SummarySet_to_bytes (ss : SummarySet) : List Word :=
  .u32 ss.length :: encodeRecords ss

/-- Decode `n` consecutive Summary records (the loop inside
`SummarySet_from_bytes`), propagating `CorruptData`. -/
def decodeRecords : Nat → List Word → Except ErrKind (List Summary × List Word)
  | 0, buf => .ok ([], buf)
  | n + 1, buf =>
    match Summary_decode buf with
    | .ok p =>
      match decodeRecords n p.2 with
      | .ok q => .ok (p.1 :: q.1, q.2)
      | .error e => .error e
    | .error e => .error e

/-- Modelled from the spec: `SummarySet_from_bytes(in, &ate)` — reads the
feature count then that many records regardless of their individual tags;
`CorruptData` on a malformed or truncated buffer. -/
def SummarySet_from_bytes (buf : List Word) : Except ErrKind (SummarySet × Nat) :=
  match buf with
  | .u32 n :: rest =>
    match decodeRecords n rest with
    | .ok p => .ok (p.1, 4 + (wordsSize rest - wordsSize p.2))
    | .error e => .error e
  | _ => .error .CorruptData

/-- A buffer that does not begin with an `f64` word (every record starts
with its `u8` code byte, so the remainder following a record inside a
well-formed stream satisfies this). -/
def noF64Head : List Word → Prop
  | .f64 _ :: _ => False
  | _ => True

instance : DecidablePred noF64Head := by
  intro l
  unfold noF64Head
  match l with
  | [] => exact inferInstanceAs (Decidable True)
  | .f64 _ :: _ => exact inferInstanceAs (Decidable False)
  | .u8 _ :: _ => exact inferInstanceAs (Decidable True)
  | .u32 _ :: _ => exact inferInstanceAs (Decidable True)

/-! ## Round-trip lemmas -/

theorem wordsSize_append (a b : List Word) :
    wordsSize (a ++ b) = wordsSize a + wordsSize b := by
  simp [wordsSize]

theorem wordsSize_f64map (qs : List ℚ) :
    wordsSize (qs.map Word.f64) = 8 * qs.length := by
  induction qs with
  | nil => simp [wordsSize]
  | cons q qs ih =>
    simp [wordsSize, Word.size] at ih ⊢
    omega

theorem wordsSize_to_bytes (s : Summary) :
    wordsSize (Summary_to_bytes s) = Summary_size s := by
  cases s with
  | nothing => rfl
  | categorical n cats =>
    simp [Summary_to_bytes, Summary_size, wordsSize, Word.size]
    have := wordsSize_f64map cats
    simp [wordsSize] at this
    omega
  | gaussian n m v => rfl
  | biGaussian n m0 m1 c00 c01 c11 => rfl

theorem readF64s_spec (qs : List ℚ) (rest : List Word) (h : noF64Head rest) :
    readF64s (qs.map Word.f64 ++ rest) = (qs, rest) := by
  induction qs with
  | nil =>
    match rest with
    | [] => rfl
    | .u8 _ :: _ => rfl
    | .u32 _ :: _ => rfl
    | .f64 _ :: _ => exact absurd h (by simp [noF64Head])
  | cons q qs ih => simp [readF64s, ih]

theorem Summary_decode_to_bytes (s : Summary) (rest : List Word) (h : noF64Head rest) :
    Summary_decode (Summary_to_bytes s ++ rest) = .ok (s, rest) := by
  cases s with
  | nothing => rfl
  | categorical n cats =>
    simp [Summary_to_bytes, Summary_decode, readF64s_spec cats rest h]
  | gaussian n m v => rfl
  | biGaussian n m0 m1 c00 c01 c11 => rfl

theorem noF64Head_to_bytes_append (s : Summary) (rest : List Word) :
    noF64Head (Summary_to_bytes s ++ rest) := by
  cases s <;> simp [Summary_to_bytes, noF64Head]

theorem noF64Head_encodeRecords (ss : List Summary) (rest : List Word)
    (h : noF64Head rest) :
    noF64Head (encodeRecords ss ++ rest) := by
  cases ss with
  | nil => simpa [encodeRecords]
  | cons s tl =>
    simp only [encodeRecords, List.append_assoc]
    exact noF64Head_to_bytes_append s _

theorem decodeRecords_encodeRecords (ss : List Summary) (rest : List Word)
    (h : noF64Head rest) :
    decodeRecords ss.length (encodeRecords ss ++ rest) = .ok (ss, rest) := by
  induction ss with
  | nil => simp [decodeRecords, encodeRecords]
  | cons s tl ih =>
    simp only [encodeRecords, List.append_assoc, List.length_cons, decodeRecords]
    rw [Summary_decode_to_bytes s _ (noF64Head_encodeRecords tl rest h)]
    simp [ih]

theorem wordsSize_encodeRecords (ss : List Summary) :
    wordsSize (encodeRecords ss) = (ss.map Summary_size).sum := by
  induction ss with
  | nil => simp [encodeRecords, wordsSize]
  | cons s tl ih =>
    simp [encodeRecords, wordsSize_append, ih, wordsSize_to_bytes]

theorem Summary_roundtrip_aux (s : Summary) :
    Summary_from_bytes (Summary_to_bytes s) = .ok (s, Summary_size s) := by
  have h := Summary_decode_to_bytes s [] (by simp [noF64Head])
  rw [List.append_nil] at h
  have hz : wordsSize ([] : List Word) = 0 := rfl
  simp [Summary_from_bytes, h, hz, wordsSize_to_bytes]

theorem SummarySet_roundtrip_aux (ss : SummarySet) :
    SummarySet_from_bytes (SummarySet_to_bytes ss) = .ok (ss, SummarySet_size ss) := by
  have h := decodeRecords_encodeRecords ss [] (by simp [noF64Head])
  rw [List.append_nil] at h
  have hz : wordsSize ([] : List Word) = 0 := rfl
  simp [SummarySet_from_bytes, SummarySet_to_bytes, h, hz, SummarySet_size,
    wordsSize_encodeRecords]

/-! ## Error scoring -/

/-- Weight the categorical table assigns to an observed value: the stored
count of the category whose index equals the value (0 when none does). -/
def catWeight (cats : List ℚ) (v : ℚ) : ℚ :=
  qsum ((List.range cats.length).map
    (fun (k : Nat) => if v = (k : ℚ) then cats.getD k 0 else 0))

/-- Modelled from the spec: `Summary_error` — a scalar loss for how well
the summary predicts the view's rows at the feature (the spec names
squared-error / misclassification-style losses as examples but fixes no
formula; simple non-negative losses are chosen).  `Nothing` scores 0. -/
def Summary_error (s : Summary) (dm : DataMatrix) (view : IndexView) (feature : Nat) : ℚ :=
  match s with
  | .nothing => 0
  | .categorical n cats =>
      qsum (view.map (fun r => 1 - catWeight cats (dm.value r feature) / (n : ℚ)))
  | .gaussian _ mean _ =>
      qsum (view.map (fun r => (dm.value r feature - mean) ^ 2))
  | .biGaussian _ m0 m1 _ _ _ =>
      qsum (view.map (fun r =>
        (dm.value r feature - m0) ^ 2 + (dm.value r (feature + 1) - m1) ^ 2))

/-- The per-feature loop inside `SummarySet_error`: walks the member
summaries with the running feature index, adding each error into the
corresponding cell of the output array. -/
def errorLoop (dm : DataMatrix) (view : IndexView) :
    List Summary → Nat → List ℚ → List ℚ
  | [], _, out => out
  | _ :: _, _, [] => []
  | s :: rest, f, o :: os =>
      (o + Summary_error s dm view f) :: errorLoop dm view rest (f + 1) os

/-- Modelled from the spec: `SummarySet_error(this, dm, view, out)` —
adds each member's error into the caller-provided output array (length =
feature count); it never overwrites prior contents (header line 131). -/
def SummarySet_error (ss : SummarySet) (dm : DataMatrix) (view : IndexView)
    (out : List ℚ) : List ℚ :=
  errorLoop dm view ss 0 out

/-- The per-feature error values themselves, from a starting feature
index. -/
def errVecFrom (dm : DataMatrix) (view : IndexView) : List Summary → Nat → List ℚ
  | [], _ => []
  | s :: rest, f => Summary_error s dm view f :: errVecFrom dm view rest (f + 1)

/-- The vector of per-feature errors of a SummarySet. -/
def SummarySet_errvec (ss : SummarySet) (dm : DataMatrix) (view : IndexView) : List ℚ :=
  errVecFrom dm view ss 0

/-- The full state visible to a `SummarySet_error` call: the set, the two
external collaborators and the caller's output array.  The C call works by
mutation, modelled here by explicit state passing. -/
structure ErrCallState where
  ss : SummarySet
  dm : DataMatrix
  view : IndexView
  out : List ℚ

/-- One pass of the C error loop over the listed feature indices: each
step adds the feature's error into cell `i` of the output array and
touches nothing else. -/
def errRunFrom (st : ErrCallState) : List Nat → ErrCallState
  | [] => st
  | i :: is =>
      errRunFrom
        { st with
          out := st.out.set i
            (st.out.getD i 0 + Summary_error (st.ss.getD i .nothing) st.dm st.view i) }
        is

/-- The stateful rendering of `SummarySet_error`: run the loop over all
feature indices of the set. -/
def SummarySet_error_run (st : ErrCallState) : ErrCallState :=
  errRunFrom st (List.range st.ss.length)

/-! ## Merge -/

/-- The caller-visible aggregate produced by merge (the "output value
model" of spec section 6): a probability vector for Categorical, mean and
variance for Gaussian, mean vector and covariance for BiGaussian. -/
inductive MergeResult where
  | nothingR
  | categoricalR (probs : List ℚ)
  | gaussianR (mean variance : ℚ)
  | biGaussianR (mean0 mean1 cov00 cov01 cov11 : ℚ)
deriving DecidableEq, Repr

/-- Observation count stored in a Summary. -/
def Summary.count : Summary → Nat
  | .nothing => 0
  | .categorical n _ => n
  | .gaussian n _ _ => n
  | .biGaussian n _ _ _ _ _ => n

/-- Pointwise addition of category-count vectors, padding the shorter
vector with zeros. -/
def addVec : List ℚ → List ℚ → List ℚ
  | [], ys => ys
  | x :: xs, [] => x :: xs
  | x :: xs, y :: ys => (x + y) :: addVec xs ys

/-- Modelled from the spec: merged categorical distribution — the summed
per-category counts, normalized to a probability vector. -/
def mergeCategorical (xs : List Summary) : MergeResult :=
  let cnts := xs.foldr
    (fun s acc => addVec (match s with | .categorical _ c => c | _ => []) acc) []
  .categoricalR (cnts.map (fun c => c / qsum cnts))

/-- Modelled from the spec: moment-matched reduction of a Gaussian
mixture weighted by observation counts (the reduction the spec's design
notes recommend). -/
def mergeGaussian (xs : List Summary) : MergeResult :=
  let n : ℚ := qsum (xs.map (fun s => (s.count : ℚ)))
  let m := qsum (xs.map (fun s =>
    match s with | .gaussian k mu _ => (k : ℚ) * mu | _ => 0)) / n
  let e2 := qsum (xs.map (fun s =>
    match s with | .gaussian k mu v => (k : ℚ) * (v + mu ^ 2) | _ => 0)) / n
  .gaussianR m (e2 - m ^ 2)

/-- Modelled from the spec: moment-matched reduction of a BiGaussian
mixture weighted by observation counts. -/
def mergeBiGaussian (xs : List Summary) : MergeResult :=
  let n : ℚ := qsum (xs.map (fun s => (s.count : ℚ)))
  let m0 := qsum (xs.map (fun s =>
    match s with | .biGaussian k a _ _ _ _ => (k : ℚ) * a | _ => 0)) / n
  let m1 := qsum (xs.map (fun s =>
    match s with | .biGaussian k _ b _ _ _ => (k : ℚ) * b | _ => 0)) / n
  let e00 := qsum (xs.map (fun s =>
    match s with | .biGaussian k a _ c _ _ => (k : ℚ) * (c + a ^ 2) | _ => 0)) / n
  let e01 := qsum (xs.map (fun s =>
    match s with | .biGaussian k a b _ c _ => (k : ℚ) * (c + a * b) | _ => 0)) / n
  let e11 := qsum (xs.map (fun s =>
    match s with | .biGaussian k _ b _ _ c => (k : ℚ) * (c + b ^ 2) | _ => 0)) / n
  .biGaussianR m0 m1 (e00 - m0 ^ 2) (e01 - m0 * m1) (e11 - m1 ^ 2)

/-- Dispatch of merge on the shared tag (assumes same-tag inputs). -/
def mergeOfTag : SummaryTag → List Summary → MergeResult
  | .nothingT, _ => .nothingR
  | .categoricalT, xs => mergeCategorical xs
  | .gaussianT, xs => mergeGaussian xs
  | .biGaussianT, xs => mergeBiGaussian xs

/-- Modelled from the spec: combine same-tag summaries into one aggregate
value; `TagMismatch` when the instances do not all share one tag (never a
silent coercion). -/
def mergeSummaries : List Summary → Except ErrKind MergeResult
  | [] => .error .TagMismatch
  | s :: rest =>
    if rest.all (fun r => decide (r.tag = s.tag)) then
      .ok (mergeOfTag s.tag (s :: rest))
    else .error .TagMismatch

/-- The header's pointer-offset addressing (line 40): the true Summary is
`*(bytes(base) + offset)`.  The offset is counted in Summary slots here
(the C offset is `f * sizeof(Summary)` bytes into the set's member
array), so the addressed slot is the `offset`-th member of the base
structure. -/
def summaryAtOffset (base : SummarySet) (offset : Nat) : Summary :=
  base.getD offset .nothing

/-- Modelled from the spec: `Summary_merge_py(trees, sums, offset)` —
address each of the `trees` base pointers at the given offset and merge
the addressed summaries. -/
def Summary_merge_py (trees : Nat) (sums : List SummarySet) (offset : Nat) :
    Except ErrKind MergeResult :=
  mergeSummaries ((sums.take trees).map (fun b => summaryAtOffset b offset))

/-- Modelled from the spec: `Summary_merge_many_py(exemplars, trees,
sums, offset)` — the flat array holds `exemplars × trees` base pointers,
exemplars outer and trees inner; all addressed summaries of the call must
share one tag (`TagMismatch` otherwise), and one merged value is produced
per exemplar. -/
def Summary_merge_many_py (exemplars trees : Nat) (sums : List SummarySet) (offset : Nat) :
    Except ErrKind (List MergeResult) :=
  match (List.range (exemplars * trees)).map
      (fun i => summaryAtOffset (sums.getD i []) offset) with
  | [] => if exemplars = 0 then .ok [] else .error .TagMismatch
  | a :: rest =>
    if rest.all (fun r => decide (r.tag = a.tag)) then
      .ok ((List.range exemplars).map (fun e =>
        mergeOfTag a.tag ((List.range trees).map
          (fun t => summaryAtOffset (sums.getD (e * trees + t) []) offset))))
    else .error .TagMismatch

/-- Prepend one fallible result to a fallible list of results,
propagating the first error (the per-iteration step of the C loops). -/
def exceptCons {α : Type} (x : Except ErrKind α) (xs : Except ErrKind (List α)) :
    Except ErrKind (List α) :=
  match x with
  | .ok v =>
    match xs with
    | .ok vs => .ok (v :: vs)
    | .error e => .error e
  | .error e => .error e

/-- Collect a list of fallible results in order, stopping at the first
error (the propagation of a failed per-feature call). -/
def exceptSeq {α : Type} : List (Except ErrKind α) → Except ErrKind (List α)
  | [] => .ok []
  | x :: rest => exceptCons x (exceptSeq rest)

/-- The per-feature loop inside `SummarySet_merge_py`: for each feature
slot starting at `f`, call `Summary_merge_py` on the set array with the
slot's offset, collecting the results in slot order. -/
def setMergeLoop (trees : Nat) (sum_sets : List SummarySet) :
    Nat → Nat → Except ErrKind (List MergeResult)
  | _, 0 => .ok []
  | f, r + 1 =>
    exceptCons (Summary_merge_py trees sum_sets f) (setMergeLoop trees sum_sets (f + 1) r)

/-- Modelled from the spec: `SummarySet_merge_py(trees, sum_sets)` — a
tuple indexed by feature whose entries are the per-feature merges of the
sets' slots, produced by handing the set array itself to the per-tag
merge with the slot offset (header lines 40 and 134). -/
def SummarySet_merge_py (trees : Nat) (sum_sets : List SummarySet) :
    Except ErrKind (List MergeResult) :=
  setMergeLoop trees sum_sets 0 (sum_sets.getD 0 []).length

/-- The per-feature loop inside `SummarySet_merge_many_py`. -/
def setMergeManyLoop (exemplars trees : Nat) (sum_sets : List SummarySet) :
    Nat → Nat → Except ErrKind (List (List MergeResult))
  | _, 0 => .ok []
  | f, r + 1 =>
    exceptCons (Summary_merge_many_py exemplars trees sum_sets f)
      (setMergeManyLoop exemplars trees sum_sets (f + 1) r)

/-- Modelled from the spec: `SummarySet_merge_many_py(exemplars, trees,
sum_sets)` — per feature, the many-merge over the exemplars × trees array
of sets (exemplars outer, trees inner, header line 137). -/
def SummarySet_merge_many_py (exemplars trees : Nat) (sum_sets : List SummarySet) :
    Except ErrKind (List (List MergeResult)) :=
  setMergeManyLoop exemplars trees sum_sets 0 (sum_sets.getD 0 []).length

/-- Follows the spec's words (section 4.4): for each feature index `f`,
gather the `f`-th Summary from each set and call the matching tag's
merge, assembling the per-feature results into one ordered aggregate. -/
def SummarySet_merge_gather (trees : Nat) (sum_sets : List SummarySet) :
    Except ErrKind (List MergeResult) :=
  exceptSeq ((List.range (sum_sets.getD 0 []).length).map (fun f =>
    mergeSummaries ((sum_sets.take trees).map (fun s => s.getD f .nothing))))

/-- Follows the spec's words: the exemplars × trees grid of the `f`-th
Summary of each set, exemplars outer and trees inner. -/
def gatherGrid (exemplars trees : Nat) (sum_sets : List SummarySet) (f : Nat) :
    List (List Summary) :=
  (List.range exemplars).map (fun e =>
    (List.range trees).map (fun t => (sum_sets.getD (e * trees + t) []).getD f .nothing))

/-- Follows the spec's words (section 4.4): per feature, gather the
exemplars × trees grid of `f`-th summaries, require one shared tag across
the whole call, and produce one merged value per exemplar. -/
def SummarySet_merge_many_gather (exemplars trees : Nat) (sum_sets : List SummarySet) :
    Except ErrKind (List (List MergeResult)) :=
  exceptSeq ((List.range (sum_sets.getD 0 []).length).map (fun f =>
    let grid := gatherGrid exemplars trees sum_sets f
    match grid.flatten with
    | [] => if exemplars = 0 then .ok [] else .error .TagMismatch
    | a :: rest =>
      if rest.all (fun r => decide (r.tag = a.tag)) then
        .ok (grid.map (mergeOfTag a.tag))
      else .error .TagMismatch))

/-! ## SummarySet construction -/

/-- Default type rule of header line 125: Categorical for a discrete
feature, Gaussian for a continuous one. -/
def defaultCode (dm : DataMatrix) (f : Nat) : Char :=
  match dm.featureKind f with
  | .discrete => 'C'
  | .continuous => 'G'

/-- The code used for feature `f`: the string's character when the string
is present and long enough, the default rule otherwise (header line
125: a NULL string, modelled as `none`, and a too-short string both fall
back to the default). -/
def chosenCode (dm : DataMatrix) (codes : Option (List Char)) (f : Nat) : Char :=
  match codes with
  | none => defaultCode dm f
  | some cs => cs.getD f (defaultCode dm f)

/-- Modelled from the spec: `SummarySet_new(dm, view, codes)` — one
Summary per feature, each built by `Summary_new` with the chosen code. -/
def SummarySet_new (dm : DataMatrix) (view : IndexView) (codes : Option (List Char)) :
    Except ErrKind SummarySet :=
  exceptSeq ((List.range dm.featureCount).map
    (fun f => Summary_new (chosenCode dm codes f) dm view f))

/-- Decidable equality for `Except` results, used to evaluate the model
at concrete inputs. -/
instance exceptDecEq {ε α : Type} [DecidableEq ε] [DecidableEq α] :
    DecidableEq (Except ε α) := fun a b =>
  match a, b with
  | .ok x, .ok y =>
    if h : x = y then .isTrue (by rw [h]) else .isFalse (by simp [h])
  | .error e, .error f =>
    if h : e = f then .isTrue (by rw [h]) else .isFalse (by simp [h])
  | .ok _, .error _ => .isFalse (by simp)
  | .error _, .ok _ => .isFalse (by simp)

/-! ## Claim theorems -/

/-- C1: For every Summary and SummarySet `x`, serializing with
`to_bytes` into a buffer of `size(x)` bytes and then deserializing with
`from_bytes` reproduces `x`'s statistical content exactly, and
`from_bytes` reports `bytes_consumed` equal to `size(x)`. -/
theorem serialization_roundtrip_exact :
    (∀ s : Summary, Summary_from_bytes (Summary_to_bytes s) = .ok (s, Summary_size s))
    ∧ (∀ ss : SummarySet,
        SummarySet_from_bytes (SummarySet_to_bytes ss) = .ok (ss, SummarySet_size ss)) :=
  ⟨Summary_roundtrip_aux, SummarySet_roundtrip_aux⟩

theorem encodeRecords_eq_flatten (ss : List Summary) :
    encodeRecords ss = (ss.map Summary_to_bytes).flatten := by
  induction ss with
  | nil => rfl
  | cons s tl ih => simp [encodeRecords, ih]

/-- A heterogeneous SummarySet: Gaussian, Categorical, Nothing and
BiGaussian members in one set. -/
def hetSet : SummarySet :=
  [.gaussian 2 1 (1 / 2), .categorical 3 [2, 1], .nothing, .biGaussian 1 0 0 1 0 1]

/-- C7: SummarySet serialization is exactly the feature count (u32)
followed by the concatenation, in slot order, of each member Summary's
self-describing record (type code byte then payload), and
`SummarySet_from_bytes` reconstructs the set by reading that many records
regardless of their individual tags, so heterogeneous tag sequences
round-trip. -/
theorem set_serialization_format :
    (∀ ss : SummarySet,
        SummarySet_to_bytes ss = .u32 ss.length :: (ss.map Summary_to_bytes).flatten)
    ∧ (∀ s : Summary, (Summary_to_bytes s).head? = some (.u8 s.tag.code))
    ∧ (∀ ss : SummarySet, decodeRecords ss.length (encodeRecords ss) = .ok (ss, []))
    ∧ SummarySet_from_bytes (SummarySet_to_bytes hetSet) = .ok (hetSet, SummarySet_size hetSet) := by
  refine ⟨fun ss => ?_, fun s => ?_, fun ss => ?_, SummarySet_roundtrip_aux hetSet⟩
  · rw [SummarySet_to_bytes, encodeRecords_eq_flatten]
  · cases s <;> rfl
  · have h := decodeRecords_encodeRecords ss [] (by simp [noF64Head])
    rwa [List.append_nil] at h

/-- The data matrix of the C8 test vector: one continuous feature whose
value at row `r` is `r + 1`, so rows 0, 1, 2 carry the values
1.0, 2.0, 3.0. -/
def dmC8 : DataMatrix := ⟨1, fun _ => .continuous, fun r _ => (r : ℚ) + 1, fun _ => 0⟩

/-- C8: a Gaussian Summary constructed from the row subset whose feature
values are [1.0, 2.0, 3.0] has count 3, mean exactly 2.0, and variance
exactly 2/3 (the population variance convention). -/
theorem gaussian_construction_values :
    Summary_new 'G' dmC8 [0, 1, 2] 0 = .ok (.gaussian 3 2 (2 / 3)) := by
  simp [Summary_new, tagOfCode, dmC8, gaussianNew, qsum]
  norm_num

/-- A data matrix with exactly one (continuous) feature, so feature 0 is
the last feature index. -/
def dmLast : DataMatrix := ⟨1, fun _ => .continuous, fun _ _ => 0, fun _ => 0⟩

/-- C2 counterexample: constructing a BiGaussian Summary at the last
feature index does NOT fail with InvalidFeatureIndex — the header (line
104) documents that the successor feature is read unconditionally (an
out-of-bounds read that crashes the real code), and the model
accordingly constructs a summary from the out-of-range read. -/
theorem biGaussian_last_feature_not_invalid :
    Summary_new 'B' dmLast [0] 0 ≠ .error .InvalidFeatureIndex := by
  simp [Summary_new, tagOfCode, dmLast]

/-- C2 amended: Summary construction fails with InvalidFeatureIndex
whenever the feature index itself is out of range, for every registered
code; but a BiGaussian at the last feature index is not caught — the
successor feature is read out of bounds (the header warns this crashes)
and construction proceeds instead of failing. -/
theorem summary_new_range_check :
    (∀ code t dm view f, tagOfCode code = some t → dm.featureCount ≤ f →
      Summary_new code dm view f = .error .InvalidFeatureIndex)
    ∧ (∀ dm view f, f + 1 = dm.featureCount →
      Summary_new 'B' dm view f = .ok (biGaussianNew dm view f)) := by
  constructor
  · intro code t dm view f ht hf
    simp [Summary_new, ht, hf]
  · intro dm view f hf
    have hlt : ¬ dm.featureCount ≤ f := by omega
    simp [Summary_new, tagOfCode, hlt]

/-- Witness for C2's amended theorem: a concrete out-of-range feature
index is rejected, and a concrete BiGaussian at the last feature index is
(wrongly, per the original claim) constructed. -/
theorem summary_new_range_check_w :
    Summary_new 'G' dmLast [] 1 = .error .InvalidFeatureIndex
    ∧ Summary_new 'B' dmLast [] 0 = .ok (biGaussianNew dmLast [] 0) :=
  ⟨summary_new_range_check.1 'G' .gaussianT dmLast [] 1 (by decide) (by decide),
   summary_new_range_check.2 dmLast [] 0 (by decide)⟩

theorem Summary_decode_error_eq (buf : List Word) (e : ErrKind)
    (h : Summary_decode buf = .error e) : e = .CorruptData := by
  match buf with
  | [] => simp [Summary_decode] at h; exact h.symm
  | .u32 _ :: _ => simp [Summary_decode] at h; exact h.symm
  | .f64 _ :: _ => simp [Summary_decode] at h; exact h.symm
  | .u8 c :: rest =>
    unfold Summary_decode at h
    repeat' split at h
    all_goals simp_all

theorem decodeRecords_error_eq (n : Nat) (buf : List Word) (e : ErrKind)
    (h : decodeRecords n buf = .error e) : e = .CorruptData := by
  induction n generalizing buf e with
  | zero => simp [decodeRecords] at h
  | succ n ih =>
    unfold decodeRecords at h
    split at h
    · split at h
      · simp at h
      · rename_i q hq
        simp only [Except.error.injEq] at h
        exact h ▸ ih _ _ hq
    · rename_i e2 he2
      simp only [Except.error.injEq] at h
      exact h ▸ Summary_decode_error_eq _ _ he2

/-- C5 counterexample: the record of a 3-observation Categorical with
two category counts, truncated inside its f64 payload (its first 13 of
21 bytes), does not fail with CorruptData — it decodes successfully as a
one-category Categorical.  The spec's section 6 grammar stores no
payload length for the categorical record (its length is the feature's
category count, which `from_bytes` does not receive), so the truncated
record is indistinguishable from a shorter valid one. -/
theorem categorical_truncation_not_corrupt :
    Summary_from_bytes ((Summary_to_bytes (.categorical 3 [2, 1])).take 3)
      = .ok (.categorical 3 [2], 13)
    ∧ Summary_from_bytes ((Summary_to_bytes (.categorical 3 [2, 1])).take 3)
      ≠ .error .CorruptData := by
  have hval : Summary_from_bytes ((Summary_to_bytes (.categorical 3 [2, 1])).take 3)
      = .ok (.categorical 3 [2], 13) := rfl
  refine ⟨hval, fun h => ?_⟩
  rw [hval] at h
  exact Except.noConfusion h

/-- C5 amended: every `from_bytes` failure is CorruptData and on failure
the result is the bare error value, carrying no partially built Summary
or SummarySet; a buffer whose leading code byte matches no registered
tag fails with CorruptData; and a record truncated anywhere the grammar
makes the shortfall detectable — any strict prefix of a Nothing,
Gaussian or BiGaussian record, or a Categorical record cut before its
f64 payload — fails with CorruptData.  A Categorical record cut inside
its f64 payload is the one undetectable case: the grammar stores no
payload length, so the shorter record reads as a valid categorical of
fewer categories. -/
theorem from_bytes_corrupt_only :
    (∀ buf e, Summary_from_bytes buf = .error e → e = .CorruptData)
    ∧ (∀ buf e, SummarySet_from_bytes buf = .error e → e = .CorruptData)
    ∧ (∀ c rest, tagOfCode c = none → Summary_from_bytes (.u8 c :: rest) = .error .CorruptData)
    ∧ (∀ (s : Summary) (t : Nat), t < (Summary_to_bytes s).length →
        (s.tag ≠ .categoricalT ∨ t < 2) →
        Summary_from_bytes ((Summary_to_bytes s).take t) = .error .CorruptData) := by
  refine ⟨fun buf e h => ?_, fun buf e h => ?_, fun c rest hc => ?_, fun s t ht hcat => ?_⟩
  · unfold Summary_from_bytes at h
    split at h
    · simp at h
    · rename_i e2 he2
      simp only [Except.error.injEq] at h
      exact h ▸ Summary_decode_error_eq _ _ he2
  · unfold SummarySet_from_bytes at h
    split at h
    · split at h
      · simp at h
      · rename_i e2 he2
        simp only [Except.error.injEq] at h
        exact h ▸ decodeRecords_error_eq _ _ _ he2
    · simp only [Except.error.injEq] at h
      exact h.symm
  · simp only [tagOfCode] at hc
    split_ifs at hc with h1 h2 h3 h4
    unfold Summary_from_bytes Summary_decode
    simp [h1, h2, h3, h4]
  · cases s with
    | nothing =>
      have h1 : t = 0 := by simpa [Summary_to_bytes] using ht
      subst h1
      rfl
    | categorical n cats =>
      have h2 : t < 2 := by
        rcases hcat with hcat | hcat
        · exact absurd rfl hcat
        · exact hcat
      interval_cases t <;> rfl
    | gaussian n m v =>
      have h4 : t < 4 := by simpa [Summary_to_bytes] using ht
      interval_cases t <;> rfl
    | biGaussian n m0 m1 c00 c01 c11 =>
      have h7 : t < 7 := by simpa [Summary_to_bytes] using ht
      interval_cases t <;> rfl

/-- Witness for C5's amended theorem: a concrete unregistered code byte,
a concrete Gaussian record truncated inside its payload, and a concrete
Categorical record cut before its payload all fail with CorruptData. -/
theorem from_bytes_corrupt_only_w :
    Summary_from_bytes [Word.u8 'Z'] = .error .CorruptData
    ∧ Summary_from_bytes ((Summary_to_bytes (.gaussian 3 1 2)).take 3) = .error .CorruptData
    ∧ Summary_from_bytes ((Summary_to_bytes (.categorical 3 [2, 1])).take 1)
      = .error .CorruptData :=
  ⟨from_bytes_corrupt_only.2.2.1 'Z' [] (by decide),
   from_bytes_corrupt_only.2.2.2 (.gaussian 3 1 2) 3 (by decide) (Or.inl (by decide)),
   from_bytes_corrupt_only.2.2.2 (.categorical 3 [2, 1]) 1 (by decide) (Or.inr (by decide))⟩

theorem errVecFrom_length (dm : DataMatrix) (view : IndexView) (ss : List Summary) (f : Nat) :
    (errVecFrom dm view ss f).length = ss.length := by
  induction ss generalizing f with
  | nil => rfl
  | cons s tl ih => simp [errVecFrom, ih]

theorem errorLoop_eq_zipWith (dm : DataMatrix) (view : IndexView) (ss : List Summary)
    (f : Nat) (out : List ℚ) (h : out.length = ss.length) :
    errorLoop dm view ss f out = List.zipWith (· + ·) out (errVecFrom dm view ss f) := by
  induction ss generalizing f out with
  | nil =>
    have : out = [] := List.length_eq_zero.mp h
    subst this
    rfl
  | cons s tl ih =>
    match out with
    | [] => simp at h
    | o :: os =>
      simp only [List.length_cons, Nat.succ.injEq] at h
      simp [errorLoop, errVecFrom, ih (f + 1) os h]

theorem zipWith_add_replicate_zero (l : List ℚ) (n : Nat) (h : l.length = n) :
    List.zipWith (· + ·) (List.replicate n 0) l = l := by
  induction l generalizing n with
  | nil => simp
  | cons x xs ih =>
    match n with
    | 0 => simp at h
    | m + 1 =>
      simp only [List.length_cons, Nat.succ.injEq] at h
      simp [List.replicate_succ, ih m h]

theorem zipWith_add_self (l : List ℚ) :
    List.zipWith (· + ·) l l = l.map (fun x => 2 * x) := by
  induction l with
  | nil => rfl
  | cons x xs ih => simp [ih, two_mul]

/-- C3: `SummarySet_error` adds each per-feature error into the
caller-provided output array (length = feature count) without overwriting
prior contents — the result is the pointwise sum of the previous contents
and the per-feature error vector — so calling it twice with the same
inputs into a pre-zeroed array yields exactly double the single-call
result. -/
theorem summarySet_error_accumulates (ss : SummarySet) (dm : DataMatrix) (view : IndexView)
    (out : List ℚ) (h : out.length = ss.length) :
    SummarySet_error ss dm view out
      = List.zipWith (· + ·) out (SummarySet_errvec ss dm view)
    ∧ SummarySet_error ss dm view
        (SummarySet_error ss dm view (List.replicate ss.length 0))
      = (SummarySet_error ss dm view (List.replicate ss.length 0)).map (fun x => 2 * x) := by
  have hlen : ∀ o : List ℚ, o.length = ss.length →
      SummarySet_error ss dm view o
        = List.zipWith (· + ·) o (SummarySet_errvec ss dm view) :=
    fun o ho => errorLoop_eq_zipWith dm view ss 0 o ho
  have hev : (SummarySet_errvec ss dm view).length = ss.length :=
    errVecFrom_length dm view ss 0
  refine ⟨hlen out h, ?_⟩
  have h1 : SummarySet_error ss dm view (List.replicate ss.length 0)
      = SummarySet_errvec ss dm view := by
    rw [hlen _ (by simp), zipWith_add_replicate_zero _ _ hev]
  rw [h1, hlen _ hev, zipWith_add_self]

/-- Witness for C3 at a concrete set, data matrix, view and output
array. -/
theorem summarySet_error_accumulates_w :
    ([(5 : ℚ)].length = ([Summary.gaussian 2 1 0] : SummarySet).length)
    ∧ (SummarySet_error [Summary.gaussian 2 1 0] dmLast [0] [5]
        = List.zipWith (· + ·) [5] (SummarySet_errvec [Summary.gaussian 2 1 0] dmLast [0])
      ∧ SummarySet_error [Summary.gaussian 2 1 0] dmLast [0]
          (SummarySet_error [Summary.gaussian 2 1 0] dmLast [0]
            (List.replicate ([Summary.gaussian 2 1 0] : SummarySet).length 0))
        = (SummarySet_error [Summary.gaussian 2 1 0] dmLast [0]
            (List.replicate ([Summary.gaussian 2 1 0] : SummarySet).length 0)).map
            (fun x => 2 * x)) :=
  ⟨by decide, summarySet_error_accumulates [Summary.gaussian 2 1 0] dmLast [0] [5] (by decide)⟩

theorem errRunFrom_frame (is : List Nat) (st : ErrCallState) :
    (errRunFrom st is).ss = st.ss ∧ (errRunFrom st is).dm = st.dm
    ∧ (errRunFrom st is).view = st.view := by
  induction is generalizing st with
  | nil => exact ⟨rfl, rfl, rfl⟩
  | cons i is ih => exact ih _

theorem errRunFrom_out_notMem (is : List Nat) (st : ErrCallState) (j : Nat)
    (hj : j ∉ is) :
    (errRunFrom st is).out.get? j = st.out.get? j := by
  induction is generalizing st with
  | nil => rfl
  | cons i is ih =>
    simp only [List.mem_cons, not_or] at hj
    simp only [errRunFrom]
    rw [ih _ hj.2]
    exact List.get?_set_ne _ _ (fun h => hj.1 h.symm)

theorem errRunFrom_out_mem (is : List Nat) (st : ErrCallState) (j : Nat)
    (hnd : is.Nodup) (hj : j ∈ is) :
    (errRunFrom st is).out.get? j
      = (st.out.get? j).map
          (fun o => o + Summary_error (st.ss.getD j .nothing) st.dm st.view j) := by
  induction is generalizing st with
  | nil => simp at hj
  | cons i is ih =>
    have hnd2 := List.nodup_cons.mp hnd
    by_cases hij : j = i
    · subst hij
      simp only [errRunFrom]
      rw [errRunFrom_out_notMem is _ j hnd2.1, List.get?_set_eq]
      cases hout : st.out.get? j with
      | none => rfl
      | some o =>
        have hge : st.out[j]? = some o := by
          rw [← List.get?_eq_getElem?]
          exact hout
        simp [hout, List.getD_eq_getElem?_getD, hge]
    · have hjis : j ∈ is := by
        rcases List.mem_cons.mp hj with h | h
        · exact absurd h hij
        · exact h
      simp only [errRunFrom]
      rw [ih _ hnd2.2 hjis]
      rw [List.get?_set_ne _ _ (fun h => hij h.symm)]

theorem errorLoop_get? (dm : DataMatrix) (view : IndexView) (ss : List Summary)
    (f : Nat) (out : List ℚ) (h : out.length = ss.length) (j : Nat) :
    (errorLoop dm view ss f out).get? j
      = (out.get? j).map
          (fun o => o + Summary_error (ss.getD j .nothing) dm view (f + j)) := by
  induction ss generalizing f out j with
  | nil =>
    have : out = [] := List.length_eq_zero.mp h
    subst this
    rfl
  | cons s tl ih =>
    match out with
    | [] => simp at h
    | o :: os =>
      simp only [List.length_cons, Nat.succ.injEq] at h
      match j with
      | 0 => simp [errorLoop]
      | j + 1 =>
        simp only [errorLoop, List.get?_cons_succ, List.getD_cons_succ]
        rw [ih (f + 1) os h j]
        have harith : f + 1 + j = f + (j + 1) := by omega
        rw [harith]

/-- C9: the stateful rendering of a `SummarySet_error` call writes only
into the caller-supplied output array — the SummarySet, the DataMatrix
and the IndexView components of the call state are unchanged — and its
effect on the output array is exactly the pure accumulation function
`SummarySet_error`. -/
theorem summarySet_error_frame (st : ErrCallState) :
    (SummarySet_error_run st).ss = st.ss
    ∧ (SummarySet_error_run st).dm = st.dm
    ∧ (SummarySet_error_run st).view = st.view
    ∧ (st.out.length = st.ss.length →
        (SummarySet_error_run st).out = SummarySet_error st.ss st.dm st.view st.out) := by
  obtain ⟨h1, h2, h3⟩ := errRunFrom_frame (List.range st.ss.length) st
  refine ⟨h1, h2, h3, fun hlen => ?_⟩
  apply List.ext_get?
  intro j
  by_cases hj : j < st.ss.length
  · rw [SummarySet_error_run, errRunFrom_out_mem _ _ _ (List.nodup_range _)
      (List.mem_range.mpr hj)]
    rw [SummarySet_error, errorLoop_get? _ _ _ _ _ hlen j]
    simp
  · rw [SummarySet_error_run, errRunFrom_out_notMem _ _ _
      (fun hmem => hj (List.mem_range.mp hmem))]
    rw [SummarySet_error, errorLoop_get? _ _ _ _ _ hlen j]
    have hnone : st.out[j]? = none := by
      rw [← List.get?_eq_getElem?]
      exact List.get?_eq_none.mpr (by omega)
    simp [List.get?_eq_getElem?, hnone]

/-- A concrete error-call state for the C9 witness. -/
def stW : ErrCallState := ⟨[.gaussian 2 1 0], dmLast, [0], [5]⟩

/-- Witness for C9 at a concrete call state. -/
theorem summarySet_error_frame_w :
    (SummarySet_error_run stW).ss = stW.ss
    ∧ (SummarySet_error_run stW).out = SummarySet_error stW.ss stW.dm stW.view stW.out :=
  ⟨(summarySet_error_frame stW).1, (summarySet_error_frame stW).2.2.2 (by decide)⟩

theorem mergeSummaries_mismatch (xs : List Summary)
    (h : ∃ x ∈ xs, ∃ y ∈ xs, x.tag ≠ y.tag) :
    mergeSummaries xs = .error .TagMismatch := by
  match xs with
  | [] =>
    obtain ⟨x, hx, _⟩ := h
    simp at hx
  | s :: rest =>
    by_cases hall : rest.all (fun r => decide (r.tag = s.tag)) = true
    · exfalso
      obtain ⟨x, hx, y, hy, hxy⟩ := h
      have htag : ∀ z ∈ s :: rest, z.tag = s.tag := by
        intro z hz
        rcases List.mem_cons.mp hz with h1 | h1
        · rw [h1]
        · simpa using List.all_eq_true.mp hall z h1
      exact hxy ((htag x hx).trans (htag y hy).symm)
    · simp only [mergeSummaries]
      rw [if_neg hall]

/-- C6: a merge call (`Summary_merge_py` or `Summary_merge_many_py`)
whose addressed input summaries do not all share the same tag fails with
TagMismatch and never silently coerces the mismatched instances. -/
theorem merge_mismatched_tags (trees exemplars : Nat) (sums : List SummarySet)
    (offset : Nat) :
    ((∃ x ∈ (sums.take trees).map (fun b => summaryAtOffset b offset),
      ∃ y ∈ (sums.take trees).map (fun b => summaryAtOffset b offset), x.tag ≠ y.tag) →
      Summary_merge_py trees sums offset = .error .TagMismatch)
    ∧ ((∃ x ∈ (List.range (exemplars * trees)).map
          (fun i => summaryAtOffset (sums.getD i []) offset),
        ∃ y ∈ (List.range (exemplars * trees)).map
          (fun i => summaryAtOffset (sums.getD i []) offset), x.tag ≠ y.tag) →
      Summary_merge_many_py exemplars trees sums offset = .error .TagMismatch) := by
  constructor
  · intro h
    exact mergeSummaries_mismatch _ h
  · intro h
    obtain ⟨x, hx, y, hy, hxy⟩ := h
    unfold Summary_merge_many_py
    match haddr : (List.range (exemplars * trees)).map
        (fun i => summaryAtOffset (sums.getD i []) offset) with
    | [] =>
      rw [haddr] at hx
      simp at hx
    | a :: rest =>
      rw [haddr] at hx hy
      by_cases hall : rest.all (fun r => decide (r.tag = a.tag)) = true
      · exfalso
        have htag : ∀ z ∈ a :: rest, z.tag = a.tag := by
          intro z hz
          rcases List.mem_cons.mp hz with h1 | h1
          · rw [h1]
          · simpa using List.all_eq_true.mp hall z h1
        exact hxy ((htag x hx).trans (htag y hy).symm)
      · simp [hall]

/-- Witness for C6: one Gaussian and one Categorical instance in the same
direct merge call, and in the same many-merge call, both fail with
TagMismatch. -/
theorem merge_mismatched_tags_w :
    Summary_merge_py 2 [[.gaussian 1 0 0], [.categorical 1 [1]]] 0 = .error .TagMismatch
    ∧ Summary_merge_many_py 1 2 [[.gaussian 1 0 0], [.categorical 1 [1]]] 0
      = .error .TagMismatch :=
  ⟨(merge_mismatched_tags 2 1 [[.gaussian 1 0 0], [.categorical 1 [1]]] 0).1 (by decide),
   (merge_mismatched_tags 2 1 [[.gaussian 1 0 0], [.categorical 1 [1]]] 0).2 (by decide)⟩

theorem loopSeq {α : Type} (g : Nat → Except ErrKind α)
    (loop : Nat → Nat → Except ErrKind (List α))
    (hls : ∀ f r, loop f (r + 1) = exceptCons (g f) (loop (f + 1) r))
    (hl0 : ∀ f, loop f 0 = .ok []) :
    ∀ r f, loop f r = exceptSeq ((List.range r).map (fun k => g (f + k))) := by
  intro r
  induction r with
  | zero => intro f; rw [hl0]; rfl
  | succ r ih =>
    intro f
    rw [hls, List.range_succ_eq_map]
    simp only [List.map_cons, List.map_map, Function.comp_def, Nat.add_zero]
    have hf : (fun (k : Nat) => g (f + Nat.succ k)) = (fun (k : Nat) => g ((f + 1) + k)) := by
      funext k
      congr 1
      omega
    rw [hf, ih (f + 1)]
    rfl

theorem gatherGrid_flatten (exemplars trees : Nat) (sum_sets : List SummarySet) (f : Nat) :
    (gatherGrid exemplars trees sum_sets f).flatten
      = (List.range (exemplars * trees)).map
          (fun i => (sum_sets.getD i []).getD f .nothing) := by
  induction exemplars with
  | zero => simp [gatherGrid, Nat.zero_mul]
  | succ e ih =>
    have h2 : (e + 1) * trees = e * trees + trees := by ring
    rw [h2, List.range_add, List.map_append, ← ih]
    rw [gatherGrid, List.range_succ, List.map_append, List.flatten_append]
    congr 1
    simp only [List.map_cons, List.map_nil, List.flatten_cons, List.flatten_nil,
      List.append_nil, List.map_map, Function.comp_def]

theorem setMergeLoop_spec (trees : Nat) (sum_sets : List SummarySet) (r f : Nat) :
    setMergeLoop trees sum_sets f r
      = exceptSeq ((List.range r).map (fun k => Summary_merge_py trees sum_sets (f + k))) :=
  loopSeq (fun i => Summary_merge_py trees sum_sets i) (setMergeLoop trees sum_sets)
    (fun _ _ => rfl) (fun _ => rfl) r f

theorem setMergeManyLoop_spec (exemplars trees : Nat) (sum_sets : List SummarySet)
    (r f : Nat) :
    setMergeManyLoop exemplars trees sum_sets f r
      = exceptSeq ((List.range r).map
          (fun k => Summary_merge_many_py exemplars trees sum_sets (f + k))) :=
  loopSeq (fun i => Summary_merge_many_py exemplars trees sum_sets i)
    (setMergeManyLoop exemplars trees sum_sets) (fun _ _ => rfl) (fun _ => rfl) r f

theorem merge_many_body_eq (exemplars trees : Nat) (sum_sets : List SummarySet) (k : Nat) :
    Summary_merge_many_py exemplars trees sum_sets k
      = (let grid := gatherGrid exemplars trees sum_sets k
         match grid.flatten with
         | [] => if exemplars = 0 then .ok [] else .error .TagMismatch
         | a :: rest =>
           if rest.all (fun r => decide (r.tag = a.tag)) then
             .ok (grid.map (mergeOfTag a.tag))
           else .error .TagMismatch) := by
  show Summary_merge_many_py exemplars trees sum_sets k
      = (match (gatherGrid exemplars trees sum_sets k).flatten with
         | [] => if exemplars = 0 then .ok [] else .error .TagMismatch
         | a :: rest =>
           if rest.all (fun r => decide (r.tag = a.tag)) then
             .ok ((gatherGrid exemplars trees sum_sets k).map (mergeOfTag a.tag))
           else .error .TagMismatch)
  rw [gatherGrid_flatten]
  unfold Summary_merge_many_py
  simp only [summaryAtOffset]
  cases haddr : (List.range (exemplars * trees)).map
      (fun i => (sum_sets.getD i []).getD k .nothing) with
  | nil => rfl
  | cons a rest =>
    by_cases hc : rest.all (fun r => decide (r.tag = a.tag)) = true
    · simp only [hc, if_true]
      congr 1
      simp only [gatherGrid, List.map_map, Function.comp_def]
    · simp [hc]

/-- C4: for SummarySet arrays sharing one feature layout,
`SummarySet_merge_py` equals the per-feature gather form of the spec —
for each feature index `f`, gather the `f`-th Summary from each set
(offset addressing with the slot offset) and merge, assembling the
results indexed by feature — and `SummarySet_merge_many_py` does the same
per exemplar, exemplars outer and trees inner. -/
theorem summarySet_merge_fanout (trees exemplars : Nat) (sum_sets : List SummarySet)
    (_hlay : ∀ s ∈ sum_sets, s.length = (sum_sets.getD 0 []).length) :
    SummarySet_merge_py trees sum_sets = SummarySet_merge_gather trees sum_sets
    ∧ SummarySet_merge_many_py exemplars trees sum_sets
      = SummarySet_merge_many_gather exemplars trees sum_sets := by
  constructor
  · rw [SummarySet_merge_py, setMergeLoop_spec, SummarySet_merge_gather]
    congr 1
    apply List.map_congr_left
    intro k hk
    rw [Nat.zero_add]
    rfl
  · rw [SummarySet_merge_many_py, setMergeManyLoop_spec, SummarySet_merge_many_gather]
    congr 1
    apply List.map_congr_left
    intro k hk
    rw [Nat.zero_add]
    exact merge_many_body_eq exemplars trees sum_sets k

/-- Witness for C4 at a concrete pair of single-feature sets with equal
layout. -/
theorem summarySet_merge_fanout_w :
    (∀ s ∈ ([[.gaussian 1 0 0], [.gaussian 2 0 1]] : List SummarySet),
      s.length = (([[.gaussian 1 0 0], [.gaussian 2 0 1]] : List SummarySet).getD 0 []).length)
    ∧ (SummarySet_merge_py 2 [[.gaussian 1 0 0], [.gaussian 2 0 1]]
        = SummarySet_merge_gather 2 [[.gaussian 1 0 0], [.gaussian 2 0 1]]
      ∧ SummarySet_merge_many_py 1 2 [[.gaussian 1 0 0], [.gaussian 2 0 1]]
        = SummarySet_merge_many_gather 1 2 [[.gaussian 1 0 0], [.gaussian 2 0 1]]) :=
  ⟨by decide,
   summarySet_merge_fanout 2 1 [[.gaussian 1 0 0], [.gaussian 2 0 1]] (by decide)⟩

theorem exceptSeq_map_ok {α β : Type} (l : List α) (g : α → Except ErrKind β) (h : α → β)
    (hok : ∀ a ∈ l, g a = .ok (h a)) :
    exceptSeq (l.map g) = .ok (l.map h) := by
  induction l with
  | nil => rfl
  | cons a tl ih =>
    simp only [List.map_cons, exceptSeq]
    rw [hok a (List.mem_cons_self a tl), ih (fun b hb => hok b (List.mem_cons_of_mem a hb))]
    rfl

theorem exceptSeq_ok_get {α : Type} (xs : List (Except ErrKind α)) (out : List α)
    (hc : exceptSeq xs = .ok out) (i : Nat) (x : Except ErrKind α)
    (hx : xs.get? i = some x) :
    ∃ v, x = .ok v ∧ out.get? i = some v := by
  induction xs generalizing out i with
  | nil => simp at hx
  | cons a tl ih =>
    cases ha : a with
    | error e =>
      rw [exceptSeq, ha] at hc
      simp [exceptCons] at hc
    | ok v =>
      rw [exceptSeq, ha] at hc
      cases htl : exceptSeq tl with
      | error e =>
        rw [htl] at hc
        simp [exceptCons] at hc
      | ok vs =>
        rw [htl] at hc
        simp only [exceptCons, Except.ok.injEq] at hc
        subst hc
        match i with
        | 0 =>
          simp only [List.get?_cons_zero, Option.some.injEq] at hx
          exact ⟨v, by rw [← hx, ha], rfl⟩
        | i + 1 =>
          simp only [List.get?_cons_succ] at hx ⊢
          exact ih vs htl i hx

/-- C10: `SummarySet_new` with a NULL type-code string assigns each
feature its default summary kind — Categorical for a discrete feature and
Gaussian for a continuous one — and when a non-NULL code string is
shorter than the feature count, every feature index past the end of the
string gets that same default construction. -/
theorem summarySet_new_default_rule (dm : DataMatrix) (view : IndexView) (cs : List Char)
    (ss2 : SummarySet) (h2 : SummarySet_new dm view (some cs) = .ok ss2) :
    SummarySet_new dm view none
      = .ok ((List.range dm.featureCount).map (fun f =>
          match dm.featureKind f with
          | .discrete => categoricalNew dm view f
          | .continuous => gaussianNew dm view f))
    ∧ ∀ f, f < dm.featureCount → cs.length ≤ f →
        ss2.get? f = some (match dm.featureKind f with
          | .discrete => categoricalNew dm view f
          | .continuous => gaussianNew dm view f) := by
  have hok : ∀ codes f, f < dm.featureCount → chosenCode dm codes f = defaultCode dm f →
      Summary_new (chosenCode dm codes f) dm view f
        = .ok (match dm.featureKind f with
          | .discrete => categoricalNew dm view f
          | .continuous => gaussianNew dm view f) := by
    intro codes f hf hdef
    rw [hdef]
    have hnle : ¬ dm.featureCount ≤ f := by omega
    cases hkind : dm.featureKind f with
    | discrete => simp [defaultCode, hkind, Summary_new, tagOfCode, hnle]
    | continuous => simp [defaultCode, hkind, Summary_new, tagOfCode, hnle]
  constructor
  · rw [SummarySet_new]
    apply exceptSeq_map_ok
    intro f hf
    exact hok none f (List.mem_range.mp hf) rfl
  · intro f hf hcs
    rw [SummarySet_new] at h2
    have hx : ((List.range dm.featureCount).map
        (fun f => Summary_new (chosenCode dm (some cs) f) dm view f)).get? f
        = some (Summary_new (chosenCode dm (some cs) f) dm view f) := by
      rw [List.get?_map, List.get?_range hf]
      rfl
    obtain ⟨v, hv, hout⟩ := exceptSeq_ok_get _ _ h2 f _ hx
    have hdef : chosenCode dm (some cs) f = defaultCode dm f := by
      have hnone : cs[f]? = none := List.getElem?_eq_none hcs
      simp [chosenCode, List.getD_eq_getElem?_getD, hnone]
    rw [hok (some cs) f hf hdef] at hv
    rw [hout]
    congr 1
    exact (Except.ok.inj hv).symm

/-- A two-feature data matrix (feature 0 discrete with two categories,
feature 1 continuous) for the C10 witness. -/
def dmW10 : DataMatrix :=
  ⟨2, fun f => if f = 0 then .discrete else .continuous, fun r _ => (r : ℚ), fun _ => 2⟩

/-- Witness for C10: one concrete code string shorter than the feature
count; the feature past its end gets the default Gaussian construction
and the NULL string gives the default for every feature. -/
theorem summarySet_new_default_rule_w :
    SummarySet_new dmW10 [0] (some ['C'])
      = .ok [categoricalNew dmW10 [0] 0, gaussianNew dmW10 [0] 1]
    ∧ (SummarySet_new dmW10 [0] none
        = .ok ((List.range dmW10.featureCount).map (fun f =>
            match dmW10.featureKind f with
            | .discrete => categoricalNew dmW10 [0] f
            | .continuous => gaussianNew dmW10 [0] f))
      ∧ ∀ f, f < dmW10.featureCount → (['C'] : List Char).length ≤ f →
          ([categoricalNew dmW10 [0] 0, gaussianNew dmW10 [0] 1] : SummarySet).get? f
            = some (match dmW10.featureKind f with
              | .discrete => categoricalNew dmW10 [0] f
              | .continuous => gaussianNew dmW10 [0] f)) := by
  have h2 : SummarySet_new dmW10 [0] (some ['C'])
      = .ok [categoricalNew dmW10 [0] 0, gaussianNew dmW10 [0] 1] := by
    simp [SummarySet_new, List.range_succ, exceptSeq, exceptCons, Summary_new,
      chosenCode, defaultCode, tagOfCode, dmW10]
  exact ⟨h2, summarySet_new_default_rule dmW10 [0] ['C'] _ h2⟩
